import Mathlib

/-!
# Verification of `image_proc` crop_non_zero

A shallow embedding of `CropNonZeroNode::imageCb` from
`src/image_proc/src/crop_non_zero.cpp`, together with theorems settling the
specification claims about it.

Pixel samples are modelled as rationals (`ℚ`), which covers the integer and
floating formats the node accepts; image buffers are flat row-major lists.
External library calls that are not part of this repository (`cv_bridge`,
OpenCV's `minMaxIdx`, `convertTo`, `findContours`, `boundingRect`,
`std::max_element`, `sensor_msgs::image_encodings`) are modelled from their
documented contracts as restated by the spec; each such definition says so in
its doc comment.
-/

namespace ImagePipeline

/-- A pixel-format tag as used by `sensor_msgs`.  Modelled from the spec:
`sensor_msgs::image_encodings` is not part of this repository.  An encoding
is a string tag together with its channel count and bit depth (e.g. `8UC1`
and `mono8` are both unsigned 8-bit single-channel tags). -/
structure Encoding where
  tag : String
  channels : Nat
  bitDepth : Nat
deriving DecidableEq, Repr

/-- The tag `"8UC1"` (`sensor_msgs::image_encodings::TYPE_8UC1`). -/
def TYPE_8UC1 : Encoding := ⟨"8UC1", 1, 8⟩

/-- The tag `"mono8"` (`sensor_msgs::image_encodings::MONO8`): also unsigned
8-bit single-channel, but a different tag than `TYPE_8UC1`. -/
def MONO8 : Encoding := ⟨"mono8", 1, 8⟩

/-- The tag `"16UC1"` (`sensor_msgs::image_encodings::TYPE_16UC1`), a wider single-channel tag. -/
def TYPE_16UC1 : Encoding := ⟨"16UC1", 1, 16⟩

/-- An example two-channel tag, used to exercise the channel-count check. -/
def TYPE_8UC2 : Encoding := ⟨"8UC2", 2, 8⟩

/-- Modelled from the spec: `sensor_msgs::image_encodings::numChannels`
reads the channel count declared by the encoding tag. -/
def numChannels (e : Encoding) : Nat := e.channels

/-- The passthrough header metadata of a `sensor_msgs::msg::Image`
(capture timestamp and frame identifier). -/
structure Header where
  stamp : Nat
  frame_id : String
deriving DecidableEq, Repr

/-- A `sensor_msgs::msg::Image`: header, encoding tag, dimensions and the
flat pixel buffer (row-major). -/
structure ImageMsg where
  header : Header
  encoding : Encoding
  width : Nat
  height : Nat
  data : List ℚ
deriving DecidableEq, Repr

/-- A decoded `cv::Mat`-like single-channel image: dimensions plus a flat
row-major sample buffer. -/
structure Image where
  width : Nat
  height : Nat
  data : List ℚ
deriving DecidableEq, Repr

/-- Sample at column `x`, row `y` (out-of-range reads give 0, which the
in-bounds side conditions of the theorems rule out where it matters). -/
def pixelAt (img : Image) (x y : Nat) : ℚ :=
  img.data.getD (y * img.width + x) 0

/-- Modelled from the spec: `cv_bridge::toCvShare` decodes the message into
an image and throws when the buffer does not match the declared geometry;
the model returns `none` exactly on the throwing paths. -/
def toCvShare (msg : ImageMsg) : Option Image :=
  if msg.data.length = msg.width * msg.height * numChannels msg.encoding then
    some ⟨msg.width, msg.height, msg.data⟩
  else
    none

/-! ## Normalization to an 8-bit mask (crop_non_zero.cpp lines 108-116) -/

/-- The sample values of the pixels whose value is not exactly zero — the
subset over which `cv::minMaxIdx` is run (the call is masked with
`cv_ptr->image != 0.`). -/
def nonZeroVals (img : Image) : List ℚ :=
  img.data.filter (fun v => v ≠ 0)

/-- Minimum of a list of rationals (0 on the empty list: with no non-zero
pixel the masked `minMaxIdx` leaves no defined extrema, and the model
collapses that case into the degenerate zero range). -/
def listMinQ : List ℚ → ℚ
  | [] => 0
  | x :: xs => xs.foldl min x

/-- Maximum of a list of rationals (0 on the empty list). -/
def listMaxQ : List ℚ → ℚ
  | [] => 0
  | x :: xs => xs.foldl max x

/-- The `minVal` of crop_non_zero.cpp line 112: minimum over non-zero pixels. -/
def maskedMin (img : Image) : ℚ := listMinQ (nonZeroVals img)

/-- The `maxVal` of crop_non_zero.cpp line 112: maximum over non-zero pixels. -/
def maskedMax (img : Image) : ℚ := listMaxQ (nonZeroVals img)

/-- Modelled from the spec: OpenCV's `cvRound`, rounding to the nearest
integer with ties to even, as used by `convertTo` with a `CV_8U` target. -/
def cvRound (x : ℚ) : ℤ :=
  if x - Int.floor x < 1/2 then Int.floor x
  else if x - Int.floor x > 1/2 then Int.floor x + 1
  else if Int.floor x % 2 = 0 then Int.floor x else Int.floor x + 1

/-- Saturation of an integer into the unsigned 8-bit range [0, 255]
(clamping, not wrapping), as in OpenCV's `saturate_cast<uchar>`. -/
def saturate8 (n : ℤ) : ℤ := max 0 (min 255 n)

/-- Modelled from the spec: `cv::Mat::convertTo` with target `CV_8U`,
scale `alpha` and shift `beta`: each sample `v` becomes
`saturate_cast<uchar>(cvRound(v * alpha + beta))`. -/
def convertTo8U (img : Image) (alpha beta : ℚ) : Image :=
  { img with data := img.data.map (fun v => ((saturate8 (cvRound (v * alpha + beta)) : ℤ) : ℚ)) }

/-- The mask construction of crop_non_zero.cpp lines 108-116: if the
encoding is exactly `TYPE_8UC1` the mask is the input image itself;
otherwise masked extrema are taken over the non-zero pixels and the image
is converted with scale `255 / ra` and shift `-minVal * 255 / ra` where
`ra = maxVal - minVal`.  When `ra = 0` the C++ divides by zero (the scale
is non-finite and the 8-bit conversion of the resulting NaN is undefined);
the model returns `none` on exactly that path. -/
def computeMask (msg : ImageMsg) (img : Image) : Option Image :=
  if msg.encoding = TYPE_8UC1 then
    some img
  else
    let minVal := maskedMin img
    let maxVal := maskedMax img
    let ra := maxVal - minVal
    if ra = 0 then none
    else some (convertTo8U img (255 / ra) (-(minVal * 255 / ra)))

/-- The spec's normalization formula, stated in the spec's own words: map
every source pixel `v` to `round(v * 255/range - minVal*255/range)`,
clamped to [0, 255].  Used to compare the spec's wording against the
source's `convertTo` call. -/
def specNormalize (minVal maxVal v : ℚ) : ℚ :=
  ((saturate8 (cvRound (v * 255 / (maxVal - minVal) - minVal * 255 / (maxVal - minVal))) : ℤ) : ℚ)

/-! ## Contour extraction (crop_non_zero.cpp line 118)

`cv::findContours(m, cnt, CV_RETR_EXTERNAL, CV_CHAIN_APPROX_NONE)` is an
OpenCV call, not code of this repository.  Modelled from the spec: external
contours only — one outermost boundary per 8-connected non-zero region,
with every boundary pixel retained (no polyline approximation); regions are
discovered in raster-scan order. -/

/-- Whether point `p` (integer coordinates, `(x, y)`) is an in-bounds
non-zero pixel of the mask. -/
def nzAt (m : Image) (p : ℤ × ℤ) : Bool :=
  decide (0 ≤ p.1 ∧ p.1 < (m.width : ℤ) ∧ 0 ≤ p.2 ∧ p.2 < (m.height : ℤ) ∧
    pixelAt m p.1.toNat p.2.toNat ≠ 0)

/-- The eight neighbours of a pixel (8-connectivity of the foreground). -/
def neighbors8 (p : ℤ × ℤ) : List (ℤ × ℤ) :=
  [(p.1 - 1, p.2 - 1), (p.1, p.2 - 1), (p.1 + 1, p.2 - 1),
   (p.1 - 1, p.2), (p.1 + 1, p.2),
   (p.1 - 1, p.2 + 1), (p.1, p.2 + 1), (p.1 + 1, p.2 + 1)]

/-- The four edge-neighbours of a pixel (used to detect boundary pixels:
a foreground pixel is on the external boundary when an edge-neighbour is
background or outside the image). -/
def neighbors4 (p : ℤ × ℤ) : List (ℤ × ℤ) :=
  [(p.1, p.2 - 1), (p.1 - 1, p.2), (p.1 + 1, p.2), (p.1, p.2 + 1)]

/-- Fuelled flood fill collecting the 8-connected non-zero region around
the seeds on the work list; `visited` accumulates the region. -/
def floodGo (m : Image) : Nat → List (ℤ × ℤ) → List (ℤ × ℤ) → List (ℤ × ℤ)
  | 0, visited, _ => visited
  | _ + 1, visited, [] => visited
  | fuel + 1, visited, p :: stack =>
    if p ∈ visited then floodGo m fuel visited stack
    else if nzAt m p then floodGo m fuel (visited ++ [p]) (neighbors8 p ++ stack)
    else floodGo m fuel visited stack

/-- The 8-connected non-zero region containing `seed` (the fuel bounds the
total number of work-list pops, which never exceeds `8·W·H + 9`). -/
def flood (m : Image) (seed : ℤ × ℤ) : List (ℤ × ℤ) :=
  floodGo m (8 * (m.width * m.height) + 9) [] [seed]

/-- All pixel coordinates of the mask in raster-scan order (row by row,
left to right) — the discovery order of regions. -/
def rasterPts (m : Image) : List (ℤ × ℤ) :=
  (List.range m.height).flatMap (fun y => (List.range m.width).map (fun x => ((x : ℤ), (y : ℤ))))

/-- One step of region discovery: at a non-zero pixel not already claimed
by a found region, append that pixel's full region. -/
def componentsStep (m : Image) (comps : List (List (ℤ × ℤ))) (p : ℤ × ℤ) :
    List (List (ℤ × ℤ)) :=
  if nzAt m p = true ∧ ∀ comp ∈ comps, p ∉ comp then comps ++ [flood m p] else comps

/-- The 8-connected non-zero regions of the mask, in raster discovery
order. -/
def components (m : Image) : List (List (ℤ × ℤ)) :=
  (rasterPts m).foldl (componentsStep m) []

/-- The external boundary pixels of a region: those with an edge-neighbour
that is background or outside the image. -/
def regionBoundary (m : Image) (comp : List (ℤ × ℤ)) : List (ℤ × ℤ) :=
  comp.filter (fun p => (neighbors4 p).any (fun q => !(nzAt m q)))

/-- Modelled from the spec: `cv::findContours` with `CV_RETR_EXTERNAL` and
`CV_CHAIN_APPROX_NONE` — the external boundary of each non-zero region,
every boundary pixel retained, in raster discovery order. -/
def findContours (m : Image) : List (List (ℤ × ℤ)) :=
  (components m).map (regionBoundary m)

/-! ## Largest-contour selection (crop_non_zero.cpp lines 121-128) -/

/-- The fold underlying `std::max_element` with comparator
`a.size() < b.size()`: the current best is replaced only when a later
contour has strictly more points. -/
def maxElemGo (best : List (ℤ × ℤ)) : List (List (ℤ × ℤ)) → List (ℤ × ℤ)
  | [] => best
  | c :: cs => maxElemGo (if best.length < c.length then c else best) cs

/-- Modelled from the spec: `std::max_element` over the contour list with
the point-count comparator; `none` on the empty list (where the C++
`cnt[std::distance(cnt.begin(), it)]` would index an empty vector). -/
def maxElement (l : List (List (ℤ × ℤ))) : Option (List (ℤ × ℤ)) :=
  match l with
  | [] => none
  | x :: xs => some (maxElemGo x xs)

/-! ## Bounding rectangle and crop (crop_non_zero.cpp lines 128-138) -/

/-- An axis-aligned rectangle `(x, y, width, height)` in pixel
coordinates, as `cv::Rect`. -/
structure Rect where
  x : ℤ
  y : ℤ
  w : ℤ
  h : ℤ
deriving DecidableEq, Repr

/-- Minimum of a list of integers (0 on the empty list). -/
def listMinI : List ℤ → ℤ
  | [] => 0
  | x :: xs => xs.foldl min x

/-- Maximum of a list of integers (0 on the empty list). -/
def listMaxI : List ℤ → ℤ
  | [] => 0
  | x :: xs => xs.foldl max x

/-- Modelled from the spec: `cv::boundingRect` — the minimal axis-aligned
rectangle enclosing the points (`Rect(0,0,0,0)` on an empty point list). -/
def boundingRect (c : List (ℤ × ℤ)) : Rect :=
  match c with
  | [] => ⟨0, 0, 0, 0⟩
  | _ :: _ =>
    let xs := c.map Prod.fst
    let ys := c.map Prod.snd
    ⟨listMinI xs, listMinI ys,
     listMaxI xs - listMinI xs + 1, listMaxI ys - listMinI ys + 1⟩

/-- Lines 118-128 combined: extract the contours of the mask, select the
one with the most points (`none` when there is no contour, where the C++
faults), and take its bounding rectangle. -/
def selectRect (m : Image) : Option Rect :=
  (maxElement (findContours m)).map boundingRect

/-- The ROI view `cv_ptr->image(r)` (line 133): the sub-region of the ORIGINAL image
restricted to the rectangle. -/
def cropToRect (img : Image) (r : Rect) : Image :=
  { width := r.w.toNat, height := r.h.toNat,
    data := (List.range r.h.toNat).flatMap (fun j =>
      (List.range r.w.toNat).map (fun i =>
        pixelAt img (r.x.toNat + i) (r.y.toNat + j))) }

/-! ## The callback (crop_non_zero.cpp lines 88-139) -/

/-- The silent early-return paths of `imageCb`: a `cv_bridge` decode
exception (lines 90-96) and a channel count other than 1 (lines 99-104).
Both log and return without publishing. -/
inductive DropReason
  | decodeError
  | unsupportedChannelCount
deriving DecidableEq, Repr

/-- The undefined-behaviour paths of `imageCb`: dividing by a zero
normalization range in `convertTo` (line 115), and indexing `cnt[0]` on an
empty contour vector (line 128). -/
inductive FaultKind
  | divisionByZeroRange
  | emptyContourIndex
deriving DecidableEq, Repr

/-- Outcome of one `imageCb` invocation: publish one output message, drop
the frame silently, or hit undefined behaviour. -/
inductive CbResult
  | published (out : ImageMsg)
  | dropped (why : DropReason)
  | fault (k : FaultKind)
deriving DecidableEq, Repr

/-- The callback `CropNonZeroNode::imageCb` (crop_non_zero.cpp lines 88-139): decode,
reject multi-channel encodings, build the 8-bit mask, extract contours,
select the largest by point count, and publish the sub-region of the
original image at its bounding rectangle with the input's header and
encoding passed through unchanged. -/
def imageCb (msg : ImageMsg) : CbResult :=
  match toCvShare msg with
  | none => CbResult.dropped DropReason.decodeError
  | some img =>
    if numChannels msg.encoding ≠ 1 then
      CbResult.dropped DropReason.unsupportedChannelCount
    else
      match computeMask msg img with
      | none => CbResult.fault FaultKind.divisionByZeroRange
      | some m =>
        match selectRect m with
        | none => CbResult.fault FaultKind.emptyContourIndex
        | some r =>
          CbResult.published
            { header := msg.header, encoding := msg.encoding,
              width := r.w.toNat, height := r.h.toNat,
              data := (cropToRect img r).data }

/-- The bounding box of ALL non-zero pixels of an image (the union over
regions) — the notion the idempotence claim is phrased in terms of. -/
def nonZeroBBox (img : Image) : Rect :=
  boundingRect ((rasterPts img).filter (nzAt img))

/-! ## Concrete inputs used as witnesses and counterexamples -/

/-- A fixed header used by the concrete example messages. -/
def exHeader : Header := ⟨7, "camera"⟩

/-- A 2×2 all-zero unsigned 8-bit single-channel message. -/
def zeroMsg : ImageMsg := ⟨exHeader, TYPE_8UC1, 2, 2, [0, 0, 0, 0]⟩

/-- A 2×1 16-bit single-channel message whose two pixels are equal and
non-zero, so the masked normalization range collapses to zero. -/
def eqRangeMsg : ImageMsg := ⟨exHeader, TYPE_16UC1, 2, 1, [5, 5]⟩

/-- A 1×1 two-channel message (with a matching two-sample buffer). -/
def twoChanMsg : ImageMsg := ⟨exHeader, TYPE_8UC2, 1, 1, [0, 0]⟩

/-- A message whose buffer length does not match its declared geometry, so
decoding it fails. -/
def badDecodeMsg : ImageMsg := ⟨exHeader, TYPE_8UC1, 2, 2, [1]⟩

/-- A 2×1 `mono8` message: unsigned 8-bit single-channel, but not the
`8UC1` tag. -/
def monoMsg : ImageMsg := ⟨exHeader, MONO8, 2, 1, [1, 2]⟩

/-- The decoded image of `monoMsg`. -/
def monoImg : Image := ⟨2, 1, [1, 2]⟩

/-- A 2×2 message that is entirely non-zero (its own crop). -/
def fullMsg : ImageMsg := ⟨exHeader, TYPE_8UC1, 2, 2, [255, 255, 255, 255]⟩

/-- The decoded image of `fullMsg`. -/
def fullImg : Image := ⟨2, 2, [255, 255, 255, 255]⟩

/-- A 3×3 8-bit message with exactly two non-zero pixels, at the opposite
corners `(0,0)` and `(2,2)`: its non-zero bounding box is the full 3×3
extent, but the non-zero region is disconnected. -/
def cornersMsg : ImageMsg := ⟨exHeader, TYPE_8UC1, 3, 3, [255, 0, 0, 0, 0, 0, 0, 0, 255]⟩

/-- The decoded image of `cornersMsg`. -/
def cornersImg : Image := ⟨3, 3, [255, 0, 0, 0, 0, 0, 0, 0, 255]⟩

/-- A 2×1 16-bit single-channel message with distinct non-zero pixels 1
and 3, giving a positive normalization range. -/
def rangeMsg : ImageMsg := ⟨exHeader, TYPE_16UC1, 2, 1, [1, 3]⟩

/-- The decoded image of `rangeMsg`. -/
def rangeImg : Image := ⟨2, 1, [1, 3]⟩

/-- A concrete contour list with point counts 1 and 2. -/
def twoContours : List (List (ℤ × ℤ)) := [[(0, 0)], [(4, 0), (5, 0)]]

/-! ## Properties of the largest-contour selection -/

theorem maxElemGo_choice (xs : List (List (ℤ × ℤ))) :
    ∀ best : List (ℤ × ℤ), maxElemGo best xs = best ∨ maxElemGo best xs ∈ xs := by
  induction xs with
  | nil => intro best; left; rfl
  | cons c cs ih =>
    intro best
    rw [maxElemGo]
    rcases ih (if best.length < c.length then c else best) with h | h
    · rw [h]
      split
      · right; simp
      · left; rfl
    · right
      exact List.mem_cons_of_mem c h

theorem le_maxElemGo (xs : List (List (ℤ × ℤ))) :
    ∀ best : List (ℤ × ℤ), best.length ≤ (maxElemGo best xs).length := by
  induction xs with
  | nil => intro best; exact le_rfl
  | cons c cs ih =>
    intro best
    rw [maxElemGo]
    refine le_trans ?_ (ih (if best.length < c.length then c else best))
    split_ifs with hlt
    · exact le_of_lt hlt
    · exact le_rfl

theorem maxElemGo_max (xs : List (List (ℤ × ℤ))) :
    ∀ (best d : List (ℤ × ℤ)), d ∈ xs → d.length ≤ (maxElemGo best xs).length := by
  induction xs with
  | nil => intro best d hd; cases hd
  | cons c cs ih =>
    intro best d hd
    rw [maxElemGo]
    rcases List.mem_cons.mp hd with rfl | hd
    · refine le_trans ?_ (le_maxElemGo cs (if best.length < d.length then d else best))
      split_ifs with hlt
      · exact le_rfl
      · exact le_of_not_lt hlt
    · exact ih (if best.length < c.length then c else best) d hd

theorem maxElemGo_find (xs : List (List (ℤ × ℤ))) :
    ∀ best : List (ℤ × ℤ),
      (best :: xs).find? (fun d => d.length == (maxElemGo best xs).length) =
        some (maxElemGo best xs) := by
  induction xs with
  | nil =>
    intro best
    rw [maxElemGo]
    exact List.find?_cons_of_pos [] (by simp)
  | cons c cs ih =>
    intro best
    rw [maxElemGo]
    by_cases hlt : best.length < c.length
    · rw [if_pos hlt]
      have hb : (best.length == (maxElemGo c cs).length) = false := by
        rw [beq_eq_false_iff_ne]
        have := le_maxElemGo cs c
        omega
      rw [List.find?_cons_of_neg _ (by simp [hb])]
      exact ih c
    · rw [if_neg hlt]
      have hcle : c.length ≤ best.length := le_of_not_lt hlt
      by_cases hb : best.length = (maxElemGo best cs).length
      · have hfind := ih best
        rw [List.find?_cons_of_pos _ (by simp [hb])] at hfind ⊢
        exact hfind
      · have hblt : best.length < (maxElemGo best cs).length :=
          lt_of_le_of_ne (le_maxElemGo cs best) hb
        have hfind := ih best
        rw [List.find?_cons_of_neg _ (by simp [hb])] at hfind
        rw [List.find?_cons_of_neg _ (by simp [hb]),
          List.find?_cons_of_neg _ (by simp; omega)]
        exact hfind

theorem maxElement_mem (l : List (List (ℤ × ℤ))) (c : List (ℤ × ℤ))
    (h : maxElement l = some c) : c ∈ l := by
  cases l with
  | nil => cases h
  | cons x xs =>
    rw [maxElement] at h
    injection h with h
    subst h
    rcases maxElemGo_choice xs x with h1 | h1
    · rw [h1]; exact List.mem_cons_self x xs
    · exact List.mem_cons_of_mem x h1

/-! ## Soundness of contour extraction: contour points are in-bounds
non-zero pixels of the mask -/

theorem floodGo_nz (m : Image) :
    ∀ (fuel : Nat) (visited stack : List (ℤ × ℤ)),
      (∀ q ∈ visited, nzAt m q = true) →
      ∀ q ∈ floodGo m fuel visited stack, nzAt m q = true := by
  intro fuel
  induction fuel with
  | zero =>
    intro visited stack h q hq
    exact h q hq
  | succ n ih =>
    intro visited stack h q hq
    cases stack with
    | nil => exact h q hq
    | cons p rest =>
      rw [floodGo] at hq
      split_ifs at hq with hv hnz
      · exact ih visited rest h q hq
      · refine ih (visited ++ [p]) (neighbors8 p ++ rest) ?_ q hq
        intro r hr
        rcases List.mem_append.mp hr with h1 | h1
        · exact h r h1
        · rw [List.mem_singleton.mp h1]
          exact hnz
      · exact ih visited rest h q hq

theorem flood_nz (m : Image) (seed : ℤ × ℤ) :
    ∀ q ∈ flood m seed, nzAt m q = true :=
  floodGo_nz m (8 * (m.width * m.height) + 9) [] [seed] (by intro q hq; cases hq)

theorem foldl_componentsStep_nz (m : Image) :
    ∀ (pts : List (ℤ × ℤ)) (acc : List (List (ℤ × ℤ))),
      (∀ comp ∈ acc, ∀ p ∈ comp, nzAt m p = true) →
      ∀ comp ∈ pts.foldl (componentsStep m) acc, ∀ p ∈ comp, nzAt m p = true := by
  intro pts
  induction pts with
  | nil =>
    intro acc h
    simpa using h
  | cons q rest ih =>
    intro acc h
    rw [List.foldl_cons]
    refine ih (componentsStep m acc q) ?_
    intro comp hcomp p hp
    rw [componentsStep] at hcomp
    split_ifs at hcomp with hcond
    · rcases List.mem_append.mp hcomp with h1 | h1
      · exact h comp h1 p hp
      · rw [List.mem_singleton.mp h1] at hp
        exact flood_nz m q p hp
    · exact h comp hcomp p hp

theorem components_nz (m : Image) :
    ∀ comp ∈ components m, ∀ p ∈ comp, nzAt m p = true :=
  foldl_componentsStep_nz m (rasterPts m) [] (by intro comp hcomp; cases hcomp)

theorem findContours_nz (m : Image) (c : List (ℤ × ℤ)) (hc : c ∈ findContours m) :
    ∀ p ∈ c, nzAt m p = true := by
  rcases List.mem_map.mp hc with ⟨comp, hcomp, rfl⟩
  intro p hp
  exact components_nz m comp hcomp p (List.mem_of_mem_filter hp)

theorem nzAt_bounds (m : Image) (p : ℤ × ℤ) (h : nzAt m p = true) :
    0 ≤ p.1 ∧ p.1 < (m.width : ℤ) ∧ 0 ≤ p.2 ∧ p.2 < (m.height : ℤ) := by
  rw [nzAt, decide_eq_true_eq] at h
  exact ⟨h.1, h.2.1, h.2.2.1, h.2.2.2.1⟩

/-! ## Fold bounds for the bounding rectangle -/

theorem le_foldl_min (a : ℤ) :
    ∀ (xs : List ℤ) (x : ℤ), a ≤ x → (∀ y ∈ xs, a ≤ y) → a ≤ xs.foldl min x := by
  intro xs
  induction xs with
  | nil =>
    intro x hx _
    simpa using hx
  | cons y ys ih =>
    intro x hx h
    rw [List.foldl_cons]
    refine ih (min x y) (le_min hx (h y (by simp))) ?_
    intro z hz
    exact h z (List.mem_cons_of_mem y hz)

theorem foldl_max_le (b : ℤ) :
    ∀ (xs : List ℤ) (x : ℤ), x ≤ b → (∀ y ∈ xs, y ≤ b) → xs.foldl max x ≤ b := by
  intro xs
  induction xs with
  | nil =>
    intro x hx _
    simpa using hx
  | cons y ys ih =>
    intro x hx h
    rw [List.foldl_cons]
    refine ih (max x y) (max_le hx (h y (by simp))) ?_
    intro z hz
    exact h z (List.mem_cons_of_mem y hz)

theorem listMinI_ge (a : ℤ) (l : List ℤ) (hne : l ≠ []) (h : ∀ y ∈ l, a ≤ y) :
    a ≤ listMinI l := by
  cases l with
  | nil => exact absurd rfl hne
  | cons x xs =>
    rw [listMinI]
    exact le_foldl_min a xs x (h x (by simp)) (fun y hy => h y (List.mem_cons_of_mem x hy))

theorem listMaxI_le (b : ℤ) (l : List ℤ) (hne : l ≠ []) (h : ∀ y ∈ l, y ≤ b) :
    listMaxI l ≤ b := by
  cases l with
  | nil => exact absurd rfl hne
  | cons x xs =>
    rw [listMaxI]
    exact foldl_max_le b xs x (h x (by simp)) (fun y hy => h y (List.mem_cons_of_mem x hy))

/-! ## Cropping at the full-extent rectangle is the identity on the data -/

theorem map_getD_range (W : Nat) :
    ∀ l : List ℚ, W ≤ l.length →
      (List.range W).map (fun i => l.getD i 0) = l.take W := by
  induction W with
  | zero =>
    intro l _
    simp
  | succ n ih =>
    intro l h
    cases l with
    | nil => simp at h
    | cons a t =>
      rw [List.range_succ_eq_map, List.map_cons, List.map_map]
      have h2 : ((fun i => (a :: t).getD i 0) ∘ Nat.succ) = (fun i => t.getD i 0) := by
        funext i
        rfl
      rw [h2, ih t (by simpa using h)]
      rfl

theorem getD_drop (l : List ℚ) (n k : Nat) :
    (l.drop n).getD k 0 = l.getD (n + k) 0 := by
  rw [List.getD_eq_getElem?_getD, List.getD_eq_getElem?_getD, List.getElem?_drop]

theorem flatMap_range_getD :
    ∀ (H W : Nat) (l : List ℚ), l.length = W * H →
      (List.range H).flatMap
        (fun j => (List.range W).map (fun i => l.getD (j * W + i) 0)) = l := by
  intro H
  induction H with
  | zero =>
    intro W l h
    simp only [Nat.mul_zero] at h
    rw [List.eq_nil_of_length_eq_zero h]
    simp
  | succ n ih =>
    intro W l h
    rw [List.range_succ_eq_map, List.flatMap_cons, List.flatMap_map]
    have hW : W ≤ l.length := by
      rw [h]
      exact Nat.le_mul_of_pos_right W (Nat.succ_pos n)
    have hrow0 : (List.range W).map (fun i => l.getD (0 * W + i) 0) = l.take W := by
      rw [← map_getD_range W l hW]
      refine List.map_congr_left ?_
      intro i _
      rw [Nat.zero_mul, Nat.zero_add]
    have hrest :
        (List.range n).flatMap
          (fun j => (List.range W).map (fun i => l.getD (Nat.succ j * W + i) 0)) =
          l.drop W := by
      have hstep :
          (fun j => (List.range W).map (fun i => l.getD (Nat.succ j * W + i) 0)) =
            (fun j => (List.range W).map (fun i => (l.drop W).getD (j * W + i) 0)) := by
        funext j
        refine List.map_congr_left ?_
        intro i _
        rw [getD_drop]
        congr 1
        rw [Nat.succ_eq_add_one]
        ring
      rw [hstep]
      refine ih W (l.drop W) ?_
      rw [List.length_drop, h]
      ring_nf
      omega
    rw [hrow0, hrest, List.take_append_drop]

theorem cropToRect_full_data (W H : Nat) (l : List ℚ) (h : l.length = W * H) :
    (cropToRect ⟨W, H, l⟩ ⟨0, 0, (W : ℤ), (H : ℤ)⟩).data = l := by
  rw [cropToRect]
  simp only [Int.toNat_natCast, Int.toNat_zero, Nat.zero_add, pixelAt]
  exact flatMap_range_getD H W l h

/-! ## Reduction of `imageCb` on the success path -/

theorem imageCb_eq_published (msg : ImageMsg) (img m : Image) (r : Rect)
    (hdec : toCvShare msg = some img)
    (hch : numChannels msg.encoding = 1)
    (hm : computeMask msg img = some m)
    (hr : selectRect m = some r) :
    imageCb msg = CbResult.published
      { header := msg.header, encoding := msg.encoding,
        width := r.w.toNat, height := r.h.toNat,
        data := (cropToRect img r).data } := by
  simp only [imageCb, hdec, hm, hr, hch, ne_eq, not_true_eq_false, if_false]

theorem toCvShare_eq_some (msg : ImageMsg) (img : Image)
    (hdec : toCvShare msg = some img) :
    msg.data.length = msg.width * msg.height * numChannels msg.encoding ∧
      img = ⟨msg.width, msg.height, msg.data⟩ := by
  rw [toCvShare] at hdec
  split_ifs at hdec with hlen
  injection hdec with hdec
  exact ⟨hlen, hdec.symm⟩

/-! ## The claims -/

/-- C1: the claim states that for an all-zero single-channel 8-bit input,
crop returns the explicit error `NoContourFound` rather than faulting.
The code has no such error path: on the all-zero 2×2 8-bit input, contour
extraction finds zero contours and crop_non_zero.cpp line 128 indexes
`cnt[0]` on the empty contour vector, which is out-of-bounds — the
embedding marks exactly that path as a fault.  The code contradicts the
claim; the claim (with the spec) is the evident intent. -/
theorem C1_allZero_input_faults :
    findContours ⟨2, 2, [0, 0, 0, 0]⟩ = [] ∧
      imageCb zeroMsg = CbResult.fault FaultKind.emptyContourIndex :=
  ⟨by decide, by decide⟩

/-- C2: for every input whose declared pixel format has more than one
channel (and which decodes into an image), `imageCb` refuses to process:
it drops the frame with the unsupported-channel-count outcome and
publishes no output; the embedding is pure, so the input message and
buffer are left untouched. -/
theorem C2_multichannel_rejected (msg : ImageMsg) (img : Image)
    (hdec : toCvShare msg = some img)
    (hch : numChannels msg.encoding ≠ 1) :
    imageCb msg = CbResult.dropped DropReason.unsupportedChannelCount := by
  simp only [imageCb, hdec]
  rw [if_pos hch]

/-- Witness for C2 at the concrete 1×1 two-channel message. -/
theorem C2_multichannel_rejected_wit :
    toCvShare twoChanMsg = some ⟨1, 1, [0, 0]⟩ ∧
      numChannels twoChanMsg.encoding ≠ 1 ∧
      imageCb twoChanMsg = CbResult.dropped DropReason.unsupportedChannelCount :=
  ⟨by decide, by decide,
    C2_multichannel_rejected twoChanMsg ⟨1, 1, [0, 0]⟩ (by decide) (by decide)⟩

/-- C3: the claim (following the spec) requires that a zero normalization
range never make the outcome undefined.  On the 2×1 16-bit input with
equal non-zero pixels the masked range `maxVal - minVal` is zero, and the
code divides `255.` by it in the `convertTo` scale (crop_non_zero.cpp
line 115): the scale is non-finite and the 8-bit conversion of the
resulting NaN is undefined.  The embedding marks exactly that division as
a fault, which this theorem reaches — the code contradicts the claim. -/
theorem C3_zero_range_faults :
    maskedMax ⟨2, 1, [5, 5]⟩ - maskedMin ⟨2, 1, [5, 5]⟩ = 0 ∧
      imageCb eqRangeMsg = CbResult.fault FaultKind.divisionByZeroRange := by
  constructor
  · norm_num [maskedMax, maskedMin, nonZeroVals, listMaxQ, listMinQ]
  · simp [imageCb, eqRangeMsg, toCvShare, numChannels, computeMask, TYPE_16UC1, TYPE_8UC1,
      exHeader, maskedMax, maskedMin, nonZeroVals, listMaxQ, listMinQ]

/-- C5: `std::max_element` with the point-count comparator
(crop_non_zero.cpp lines 121-126) selects a contour of maximal point
count, and among contours sharing the maximal count the
earliest-discovered one: the selected contour is exactly the first list
element whose count equals the maximum (so for non-ties the selection is
independent of discovery order). -/
theorem C5_first_max_selected (l : List (List (ℤ × ℤ))) (h : l ≠ []) :
    ∃ c, maxElement l = some c ∧ (∀ d ∈ l, d.length ≤ c.length) ∧
      l.find? (fun d => d.length == c.length) = some c := by
  cases l with
  | nil => exact absurd rfl h
  | cons x xs =>
    refine ⟨maxElemGo x xs, rfl, ?_, maxElemGo_find xs x⟩
    intro d hd
    rcases List.mem_cons.mp hd with rfl | hd
    · exact le_maxElemGo xs d
    · exact maxElemGo_max xs x d hd

/-- Witness for C5 at a concrete contour list with point counts 1 and 2. -/
theorem C5_first_max_selected_wit :
    twoContours ≠ [] ∧
      (∃ c, maxElement twoContours = some c ∧
        (∀ d ∈ twoContours, d.length ≤ c.length) ∧
        twoContours.find? (fun d => d.length == c.length) = some c) :=
  ⟨by decide, C5_first_max_selected twoContours (by decide)⟩

/-- C7 counterexample: `mono8` is an unsigned 8-bit single-channel format,
but its tag differs from `8UC1`, so crop_non_zero.cpp line 108 sends it
through the normalization branch instead of aliasing the input: on the
2×1 mono8 image with pixels [1, 2] the mask is [0, 255], not the input
values.  The claim, quantified over every unsigned 8-bit single-channel
format, therefore fails. -/
theorem C7_mono8_not_aliased :
    numChannels MONO8 = 1 ∧ MONO8.bitDepth = 8 ∧
      computeMask monoMsg monoImg = some ⟨2, 1, [0, 255]⟩ ∧
      computeMask monoMsg monoImg ≠ some monoImg := by
  have hmask : computeMask monoMsg monoImg = some ⟨2, 1, [0, 255]⟩ := by
    norm_num [computeMask, monoMsg, monoImg, MONO8, TYPE_8UC1, maskedMax, maskedMin,
      nonZeroVals, listMaxQ, listMinQ, convertTo8U, cvRound, saturate8]
    decide
  refine ⟨by decide, by decide, hmask, ?_⟩
  rw [hmask]
  intro hcontra
  injection hcontra with hcontra
  rw [monoImg] at hcontra
  injection hcontra with h1 h2 h3
  norm_num at h3

/-- C7 amended: for every input whose encoding is exactly the `8UC1` tag,
the mask used for contour extraction is the input image itself — the same
values with no conversion applied (and the embedding is pure: the input
buffer is never mutated).  Unsigned 8-bit single-channel inputs under a
different tag, such as `mono8`, are renormalized instead. -/
theorem C7_8uc1_mask_is_input (msg : ImageMsg) (img : Image)
    (h : msg.encoding = TYPE_8UC1) :
    computeMask msg img = some img := by
  rw [computeMask, if_pos h]

/-- Witness for the amended C7 at a concrete `8UC1` message. -/
theorem C7_8uc1_mask_is_input_wit :
    fullMsg.encoding = TYPE_8UC1 ∧ computeMask fullMsg fullImg = some fullImg :=
  ⟨by decide, C7_8uc1_mask_is_input fullMsg fullImg (by decide)⟩

/-- C4: for every single-channel input whose encoding is not the `8UC1`
tag, with `minVal` and `maxVal` computed only over the pixels whose value
is not exactly zero and a strictly positive range, the computed mask maps
EVERY source pixel `v` — zero-valued pixels included — to
`round(v * 255/range - minVal*255/range)` saturated (clamped, not
wrapped) into [0, 255]: the source's `convertTo` with scale `255/ra` and
shift `-minVal*255/ra` agrees pixelwise with the spec's formula. -/
theorem C4_normalization_matches_spec (msg : ImageMsg) (img : Image)
    (h8 : msg.encoding ≠ TYPE_8UC1)
    (hra : 0 < maskedMax img - maskedMin img) :
    computeMask msg img =
      some { img with
        data := img.data.map (specNormalize (maskedMin img) (maskedMax img)) } := by
  have hne : maskedMax img - maskedMin img ≠ 0 := ne_of_gt hra
  rw [computeMask, if_neg h8]
  simp only [if_neg hne]
  rw [convertTo8U]
  congr 2
  refine List.map_congr_left ?_
  intro v _
  rw [specNormalize]
  congr 3
  ring

/-- Witness for C4 at the 2×1 16-bit image with pixels 1 and 3. -/
theorem C4_normalization_matches_spec_wit :
    rangeMsg.encoding ≠ TYPE_8UC1 ∧
      0 < maskedMax rangeImg - maskedMin rangeImg ∧
      computeMask rangeMsg rangeImg =
        some { rangeImg with
          data := rangeImg.data.map (specNormalize (maskedMin rangeImg) (maskedMax rangeImg)) } :=
  ⟨by simp [rangeMsg, TYPE_16UC1, TYPE_8UC1, exHeader],
   by norm_num [maskedMax, maskedMin, rangeImg, nonZeroVals, listMaxQ, listMinQ],
   C4_normalization_matches_spec rangeMsg rangeImg
     (by simp [rangeMsg, TYPE_16UC1, TYPE_8UC1, exHeader])
     (by norm_num [maskedMax, maskedMin, rangeImg, nonZeroVals, listMaxQ, listMinQ])⟩

/-- C6: on every successful crop, the published output is the sub-region
of the ORIGINAL decoded image (original values, not the normalized 8-bit
mask) restricted to the selected bounding rectangle, and it carries the
input's header and encoding tag through unchanged — no metadata is
recomputed. -/
theorem C6_output_is_original_subregion (msg : ImageMsg) (img m : Image) (r : Rect)
    (hdec : toCvShare msg = some img)
    (hch : numChannels msg.encoding = 1)
    (hm : computeMask msg img = some m)
    (hr : selectRect m = some r) :
    imageCb msg = CbResult.published
      { header := msg.header, encoding := msg.encoding,
        width := r.w.toNat, height := r.h.toNat,
        data := (cropToRect img r).data } :=
  imageCb_eq_published msg img m r hdec hch hm hr

/-- Witness for C6 at the all-255 2×2 image. -/
theorem C6_output_is_original_subregion_wit :
    toCvShare fullMsg = some fullImg ∧
      numChannels fullMsg.encoding = 1 ∧
      computeMask fullMsg fullImg = some fullImg ∧
      selectRect fullImg = some ⟨0, 0, 2, 2⟩ ∧
      imageCb fullMsg = CbResult.published
        { header := fullMsg.header, encoding := fullMsg.encoding,
          width := (2 : ℤ).toNat, height := (2 : ℤ).toNat,
          data := (cropToRect fullImg ⟨0, 0, 2, 2⟩).data } :=
  ⟨by decide, by decide, by decide, by decide,
    C6_output_is_original_subregion fullMsg fullImg fullImg ⟨0, 0, 2, 2⟩
      (by decide) (by decide) (by decide) (by decide)⟩

/-- C8 counterexample: the 3×3 8-bit image with non-zero pixels only at
the opposite corners has non-zero bounding box equal to the full extent
(0,0,3,3), yet crop does not return the image unchanged: the two corner
pixels form separate regions, the selected (first) contour is the single
pixel at (0,0), and the published output is the 1×1 corner crop. -/
theorem C8_full_bbox_not_identity :
    nonZeroBBox cornersImg = ⟨0, 0, 3, 3⟩ ∧
      imageCb cornersMsg = CbResult.published ⟨exHeader, TYPE_8UC1, 1, 1, [255]⟩ ∧
      imageCb cornersMsg ≠ CbResult.published cornersMsg :=
  ⟨by decide, by decide, by decide⟩

/-- C8 amended: crop returns the input image unchanged on every decoded
single-channel input for which the SELECTED contour's bounding rectangle
is the full extent `(0, 0, W, H)` — the condition the counterexample
shows is actually needed, rather than the non-zero bounding box equalling
the full extent (which a disconnected non-zero region can satisfy while a
strictly smaller rectangle is selected). -/
theorem C8_identity_on_full_selected_rect (msg : ImageMsg) (img m : Image)
    (hdec : toCvShare msg = some img)
    (hch : numChannels msg.encoding = 1)
    (hm : computeMask msg img = some m)
    (hr : selectRect m = some ⟨0, 0, (msg.width : ℤ), (msg.height : ℤ)⟩) :
    imageCb msg = CbResult.published msg := by
  obtain ⟨hlen, himg⟩ := toCvShare_eq_some msg img hdec
  subst himg
  rw [hch, Nat.mul_one] at hlen
  rw [imageCb_eq_published msg ⟨msg.width, msg.height, msg.data⟩ m
    ⟨0, 0, (msg.width : ℤ), (msg.height : ℤ)⟩ hdec hch hm hr]
  rw [cropToRect_full_data msg.width msg.height msg.data hlen]
  rw [Int.toNat_natCast, Int.toNat_natCast]

/-- Witness for the amended C8 at the all-255 2×2 image. -/
theorem C8_identity_on_full_selected_rect_wit :
    toCvShare fullMsg = some fullImg ∧
      numChannels fullMsg.encoding = 1 ∧
      computeMask fullMsg fullImg = some fullImg ∧
      selectRect fullImg = some ⟨0, 0, (fullMsg.width : ℤ), (fullMsg.height : ℤ)⟩ ∧
      imageCb fullMsg = CbResult.published fullMsg :=
  ⟨by decide, by decide, by decide, by decide,
    C8_identity_on_full_selected_rect fullMsg fullImg fullImg
      (by decide) (by decide) (by decide) (by decide)⟩

/-- C9: whenever the contour list of a W×H mask is non-empty and a
contour is selected, its bounding rectangle lies entirely within the
image bounds (`0 ≤ x`, `0 ≤ y`, `x + width ≤ W`, `y + height ≤ H`), so
the sub-region crop of the original buffer never reads outside it. -/
theorem C9_selected_rect_in_bounds (m : Image) (c : List (ℤ × ℤ))
    (h : maxElement (findContours m) = some c) :
    0 ≤ (boundingRect c).x ∧ 0 ≤ (boundingRect c).y ∧
      (boundingRect c).x + (boundingRect c).w ≤ (m.width : ℤ) ∧
      (boundingRect c).y + (boundingRect c).h ≤ (m.height : ℤ) := by
  have hc : c ∈ findContours m := maxElement_mem (findContours m) c h
  have hnz := findContours_nz m c hc
  cases c with
  | nil =>
    have hw : (0 : ℤ) ≤ (m.width : ℤ) := Int.natCast_nonneg m.width
    have hh : (0 : ℤ) ≤ (m.height : ℤ) := Int.natCast_nonneg m.height
    simp only [boundingRect]
    exact ⟨le_rfl, le_rfl, by omega, by omega⟩
  | cons p ps =>
    have hall : ∀ q ∈ p :: ps,
        0 ≤ q.1 ∧ q.1 < (m.width : ℤ) ∧ 0 ≤ q.2 ∧ q.2 < (m.height : ℤ) :=
      fun q hq => nzAt_bounds m q (hnz q hq)
    have hminx : 0 ≤ listMinI ((p :: ps).map Prod.fst) := by
      refine listMinI_ge 0 _ (by simp) ?_
      intro y hy
      rcases List.mem_map.mp hy with ⟨q, hq, rfl⟩
      exact (hall q hq).1
    have hmaxx : listMaxI ((p :: ps).map Prod.fst) ≤ (m.width : ℤ) - 1 := by
      refine listMaxI_le _ _ (by simp) ?_
      intro y hy
      rcases List.mem_map.mp hy with ⟨q, hq, rfl⟩
      have := (hall q hq).2.1
      omega
    have hminy : 0 ≤ listMinI ((p :: ps).map Prod.snd) := by
      refine listMinI_ge 0 _ (by simp) ?_
      intro y hy
      rcases List.mem_map.mp hy with ⟨q, hq, rfl⟩
      exact (hall q hq).2.2.1
    have hmaxy : listMaxI ((p :: ps).map Prod.snd) ≤ (m.height : ℤ) - 1 := by
      refine listMaxI_le _ _ (by simp) ?_
      intro y hy
      rcases List.mem_map.mp hy with ⟨q, hq, rfl⟩
      have := (hall q hq).2.2.2
      omega
    simp only [boundingRect]
    refine ⟨hminx, hminy, by omega, by omega⟩

/-- Witness for C9 at the all-255 2×2 mask. -/
theorem C9_selected_rect_in_bounds_wit :
    maxElement (findContours fullImg) = some [(0, 0), (1, 0), (0, 1), (1, 1)] ∧
      (0 ≤ (boundingRect [(0, 0), (1, 0), (0, 1), (1, 1)]).x ∧
        0 ≤ (boundingRect [(0, 0), (1, 0), (0, 1), (1, 1)]).y ∧
        (boundingRect [(0, 0), (1, 0), (0, 1), (1, 1)]).x +
          (boundingRect [(0, 0), (1, 0), (0, 1), (1, 1)]).w ≤ (fullImg.width : ℤ) ∧
        (boundingRect [(0, 0), (1, 0), (0, 1), (1, 1)]).y +
          (boundingRect [(0, 0), (1, 0), (0, 1), (1, 1)]).h ≤ (fullImg.height : ℤ)) :=
  ⟨by decide, C9_selected_rect_in_bounds fullImg [(0, 0), (1, 0), (0, 1), (1, 1)] (by decide)⟩

/-- C10: for every message whose pixel-buffer decoding fails
(`cv_bridge::toCvShare` throws, crop_non_zero.cpp lines 90-96), `imageCb`
returns having published nothing: the frame is dropped silently, on a
path distinct from the channel-count rejection and from every
contour-related outcome. -/
theorem C10_decode_failure_drops (msg : ImageMsg)
    (hdec : toCvShare msg = none) :
    imageCb msg = CbResult.dropped DropReason.decodeError := by
  rw [imageCb, hdec]

/-- Witness for C10 at a message whose buffer is shorter than its
declared geometry. -/
theorem C10_decode_failure_drops_wit :
    toCvShare badDecodeMsg = none ∧
      imageCb badDecodeMsg = CbResult.dropped DropReason.decodeError :=
  ⟨by decide, C10_decode_failure_drops badDecodeMsg (by decide)⟩

end ImagePipeline
